import Mathlib

/-!
Shallow embedding of the calculator classes of the infinity-pricing-engine
repository (src/calculator/fair-pricing.js, capacitor-model.js, alc-market.js,
dynamic-pricing.js), together with proofs of the spec's claims about them.

Modelling conventions:
* JS numbers are modelled as rationals (`ℚ`); the code never produces NaN or
  infinity on the paths covered by the claims, except where explicitly noted,
  where an `Option ℚ` (`none` = NaN) is used.
* `x.toFixed(n)` followed by `parseFloat` (or numeric reading of the formatted
  string) is modelled as rounding to `n` decimal places, ties rounded up;
  every value it is applied to in the claims is positive, where this agrees
  with JS rounding.
* JS object-literal lookups `table[key] || default` over a string key are
  modelled with the prototype chain: own keys yield their numbers, the
  property names of `Object.prototype` yield a truthy non-numeric inherited
  value, everything else `undefined`; `||` picks by JS truthiness and
  arithmetic on non-numbers yields NaN.
-/

namespace InfinityPricing

/-- Model of `x.toFixed(2)` read back as a number: round to the nearest hundredth. -/
def round2 (q : ℚ) : ℚ := (round (q * 100) : ℤ) / 100

/-- Model of `x.toFixed(3)` read back as a number: round to the nearest thousandth. -/
def round3 (q : ℚ) : ℚ := (round (q * 1000) : ℤ) / 1000

/-- Model of `x.toFixed(1)` read back as a number: round to the nearest tenth. -/
def round1 (q : ℚ) : ℚ := (round (q * 10) : ℤ) / 10

theorem round2_le_round2 {x y : ℚ} (h : x ≤ y) : round2 x ≤ round2 y := by
  unfold round2
  have h1 : round (x * 100) ≤ round (y * 100) := by
    rw [round_eq, round_eq]
    exact Int.floor_le_floor (by linarith)
  have h100 : (0:ℚ) ≤ 100 := by norm_num
  exact div_le_div_of_nonneg_right (by exact_mod_cast h1) (by norm_num)

namespace FairPricing

/-- Constant `this.priceFloor = 0.01` (fair-pricing.js line 8). -/
def priceFloor : ℚ := 1/100

/-- Constant `this.priceCeiling = 10000` (fair-pricing.js line 9). -/
def priceCeiling : ℚ := 10000

/-- Constant `this.maxChangeRate = 0.25` (fair-pricing.js line 10). -/
def maxChangeRate : ℚ := 1/4

/-- Step 1 of `validatePrice` (fair-pricing.js lines 23-33): clamp the price
to `[priceFloor, priceCeiling]`, recording an issue for the clamp applied.
The source applies the two checks sequentially to a reassigned `price`; since
after a floor clamp the price equals `priceFloor < priceCeiling`, at most one
check fires, giving the nested conditional below. -/
def clampBounds (price : ℚ) : List String × ℚ :=
  if price < priceFloor then (["price_too_low"], priceFloor)
  else if price > priceCeiling then (["price_too_high"], priceCeiling)
  else ([], price)

/-- Step 2 of `validatePrice` (fair-pricing.js lines 36-50): if the fractional
change from the last accepted price exceeds `maxChangeRate`, limit the step to
exactly `maxChangeRate` of the last price, in the direction of the change. -/
def rapidStep (p lastPrice : ℚ) : List String × ℚ :=
  if |p - lastPrice| / lastPrice > maxChangeRate then
    (["price_change_too_rapid"],
      if p > lastPrice then lastPrice + lastPrice * maxChangeRate
      else lastPrice - lastPrice * maxChangeRate)
  else ([], p)

/-- The issue list and the accepted price of one `validatePrice` call
(the value pushed onto `priceHistory` at fair-pricing.js line 53). -/
def validateCore (price : ℚ) (history : List ℚ) : List String × ℚ :=
  let s1 := clampBounds price
  match history.getLast? with
  | none => s1
  | some lastPrice =>
      let s2 := rapidStep s1.2 lastPrice
      (s1.1 ++ s2.1, s2.2)

/-- fair-pricing.js lines 53-56: push the accepted price, keep last 100. -/
def pushHistory (history : List ℚ) (p : ℚ) : List ℚ :=
  if (history ++ [p]).length > 100 then (history ++ [p]).drop 1
  else history ++ [p]

/-- Model of `calculateFairnessScore` (fair-pricing.js lines 71-75):
`max(1.0 - issues.length * 0.2, 0)`, reported via `toFixed(2)`. -/
def calculateFairnessScore (issues : List String) : ℚ :=
  round2 (max (1 - (issues.length : ℚ) * (1/5)) 0)

/-- The record returned by `validatePrice` (fields used by the claims). -/
structure ValidateResult where
  validated_price : ℚ
  is_fair : Bool
  issues : List String
  fairness_score : ℚ
  deriving Repr, DecidableEq

/-- Model of `FairPricing.validatePrice` (fair-pricing.js lines 18-66), as a function
of the explicit `priceHistory` state; returns the result record and the
updated history. -/
def validatePrice (price : ℚ) (history : List ℚ) :
    ValidateResult × List ℚ :=
  let r := validateCore price history
  ({ validated_price := round2 r.2
   , is_fair := r.1.isEmpty
   , issues := r.1
   , fairness_score := calculateFairnessScore r.1 }, pushHistory history r.2)

/-- Histories reachable from the initial empty `priceHistory` by a sequence
of `validatePrice` calls. -/
inductive Reachable : List ℚ → Prop
  | nil : Reachable []
  | step (p : ℚ) (s : List ℚ) : Reachable s → Reachable (validatePrice p s).2

theorem clampBounds_mem (price : ℚ) :
    priceFloor ≤ (clampBounds price).2 ∧ (clampBounds price).2 ≤ priceCeiling := by
  unfold clampBounds priceFloor priceCeiling
  split_ifs with h1 h2 <;> constructor <;> simp only <;> norm_num <;> linarith

theorem clampBounds_issues_le (price : ℚ) : (clampBounds price).1.length ≤ 1 := by
  unfold clampBounds
  split_ifs <;> simp

/-- The accepted price after the rapid-change step never moves more than
`maxChangeRate` of the last price away from it. -/
theorem rapidStep_bound (p lastPrice : ℚ) (hL : 0 < lastPrice) :
    |(rapidStep p lastPrice).2 - lastPrice| ≤ maxChangeRate * lastPrice := by
  unfold rapidStep maxChangeRate
  split_ifs with h1 h2
  · show |lastPrice + lastPrice * (1/4) - lastPrice| ≤ 1/4 * lastPrice
    rw [show lastPrice + lastPrice * (1/4) - lastPrice = lastPrice * (1/4) by ring,
      abs_of_pos (by linarith)]
    linarith
  · show |lastPrice - lastPrice * (1/4) - lastPrice| ≤ 1/4 * lastPrice
    rw [show lastPrice - lastPrice * (1/4) - lastPrice = -(lastPrice * (1/4)) by ring,
      abs_neg, abs_of_pos (by linarith)]
    linarith
  · show |p - lastPrice| ≤ 1/4 * lastPrice
    have h1' : |p - lastPrice| / lastPrice ≤ 1/4 := not_lt.mp h1
    calc |p - lastPrice| = |p - lastPrice| / lastPrice * lastPrice := by
          field_simp
      _ ≤ 1/4 * lastPrice := mul_le_mul_of_nonneg_right h1' (le_of_lt hL)

/-- The rapid-change step keeps the accepted price inside the bounds when the
last price was inside them. -/
theorem rapidStep_mem (p lastPrice : ℚ)
    (hp : priceFloor ≤ p ∧ p ≤ priceCeiling)
    (hL : priceFloor ≤ lastPrice ∧ lastPrice ≤ priceCeiling) :
    priceFloor ≤ (rapidStep p lastPrice).2 ∧
      (rapidStep p lastPrice).2 ≤ priceCeiling := by
  obtain ⟨hp1, hp2⟩ := hp
  obtain ⟨hL1, hL2⟩ := hL
  unfold priceFloor priceCeiling at *
  have hLpos : 0 < lastPrice := by linarith
  unfold rapidStep maxChangeRate
  split_ifs with h1 h2
  · -- upward clamp: the condition forces p > 1.25 * lastPrice
    have hgt : 1/4 * lastPrice < |p - lastPrice| := (lt_div_iff₀ hLpos).mp h1
    have habs : |p - lastPrice| = p - lastPrice := abs_of_pos (by linarith)
    rw [habs] at hgt
    constructor
    · show 1/100 ≤ lastPrice + lastPrice * (1/4); linarith
    · show lastPrice + lastPrice * (1/4) ≤ 10000; linarith
  · -- downward clamp: the condition forces p < 0.75 * lastPrice
    have h2' : p ≤ lastPrice := not_lt.mp h2
    have hgt : 1/4 * lastPrice < |p - lastPrice| := (lt_div_iff₀ hLpos).mp h1
    have habs : |p - lastPrice| = lastPrice - p := by
      rw [abs_sub_comm]; exact abs_of_nonneg (by linarith)
    rw [habs] at hgt
    constructor
    · show 1/100 ≤ lastPrice - lastPrice * (1/4); linarith
    · show lastPrice - lastPrice * (1/4) ≤ 10000; linarith
  · exact ⟨hp1, hp2⟩

theorem rapidStep_issues_le (p lastPrice : ℚ) :
    (rapidStep p lastPrice).1.length ≤ 1 := by
  unfold rapidStep
  split_ifs <;> simp

/-- The accepted price of a `validatePrice` call is in bounds whenever every
entry of the history is. -/
theorem validateCore_mem (price : ℚ) (history : List ℚ)
    (hh : ∀ x ∈ history, priceFloor ≤ x ∧ x ≤ priceCeiling) :
    priceFloor ≤ (validateCore price history).2 ∧
      (validateCore price history).2 ≤ priceCeiling := by
  unfold validateCore
  cases hlast : history.getLast? with
  | none => exact clampBounds_mem price
  | some lastPrice =>
      have hmem : lastPrice ∈ history := by
        obtain ⟨hne, heq⟩ := List.mem_getLast?_eq_getLast
          (show lastPrice ∈ history.getLast? from hlast)
        exact heq ▸ List.getLast_mem hne
      exact rapidStep_mem _ lastPrice (clampBounds_mem price) (hh lastPrice hmem)

theorem validatePrice_snd (p : ℚ) (s : List ℚ) :
    (validatePrice p s).2 = pushHistory s (validateCore p s).2 := rfl

theorem mem_pushHistory {x q : ℚ} {s : List ℚ} (hx : x ∈ pushHistory s q) :
    x ∈ s ∨ x = q := by
  unfold pushHistory at hx
  split_ifs at hx with h
  · have hx' : x ∈ s ++ [q] := List.mem_of_mem_drop hx
    simpa using hx'
  · simpa using hx

/-- Every entry of a reachable history lies in `[priceFloor, priceCeiling]`. -/
theorem reachable_mem_bounds {s : List ℚ} (hs : Reachable s) :
    ∀ x ∈ s, priceFloor ≤ x ∧ x ≤ priceCeiling := by
  induction hs with
  | nil => simp
  | step p s hs ih =>
      intro x hx
      rw [validatePrice_snd] at hx
      rcases mem_pushHistory hx with h | h
      · exact ih x h
      · exact h ▸ validateCore_mem p s ih

theorem getLast?_pushHistory (s : List ℚ) (q : ℚ) :
    (pushHistory s q).getLast? = some q := by
  unfold pushHistory
  split_ifs with h
  · cases s with
    | nil => simp at h
    | cons a t =>
        have hdrop : ((a :: t) ++ [q]).drop 1 = t ++ [q] := by simp
        rw [hdrop]
        exact List.getLast?_concat t
  · exact List.getLast?_concat s

/-- C1: For every call to `FairPricing.validatePrice(price)`, with any prior
history built by earlier `validatePrice` calls, the returned `validated_price`
lies in `[priceFloor, priceCeiling] = [0.01, 10000]`, even when the
rapid-change clamp (step 2) rewrites the price after the bounds clamp
(step 1). -/
theorem validated_price_in_bounds (s : List ℚ) (hs : Reachable s) (p : ℚ) :
    priceFloor ≤ ((validatePrice p s).1).validated_price ∧
      ((validatePrice p s).1).validated_price ≤ priceCeiling := by
  have hb := validateCore_mem p s (reachable_mem_bounds hs)
  have h1 : ((validatePrice p s).1).validated_price =
      round2 (validateCore p s).2 := rfl
  rw [h1]
  have hf : round2 priceFloor = priceFloor := by
    unfold round2 priceFloor; norm_num [round_eq]
  have hc : round2 priceCeiling = priceCeiling := by
    unfold round2 priceCeiling; norm_num [round_eq]
  exact ⟨hf ▸ round2_le_round2 hb.1, hc ▸ round2_le_round2 hb.2⟩

/-- Witness for C1 at the empty history and price 5. -/
theorem validated_price_in_bounds_witness :
    priceFloor ≤ ((validatePrice 5 []).1).validated_price ∧
      ((validatePrice 5 []).1).validated_price ≤ priceCeiling :=
  validated_price_in_bounds [] Reachable.nil 5

/-- C2: For any two consecutive `validatePrice` calls with inputs `p1` then
`p2`, writing `accepted1` and `accepted2` for the two prices appended to
`priceHistory`, `accepted1 > 0` and
`|accepted2 - accepted1| / accepted1 ≤ maxChangeRate = 0.25`. -/
theorem consecutive_step_bounded (s : List ℚ) (hs : Reachable s) (p1 p2 : ℚ) :
    0 < (validateCore p1 s).2 ∧
      |(validateCore p2 (validatePrice p1 s).2).2 - (validateCore p1 s).2| /
        (validateCore p1 s).2 ≤ maxChangeRate := by
  have hb := validateCore_mem p1 s (reachable_mem_bounds hs)
  have ha1 : 0 < (validateCore p1 s).2 := by
    have := hb.1; unfold priceFloor at this; linarith
  refine ⟨ha1, ?_⟩
  have hsnd : (validateCore p2 (validatePrice p1 s).2).2 =
      (rapidStep (clampBounds p2).2 (validateCore p1 s).2).2 := by
    rw [validatePrice_snd]
    unfold validateCore
    rw [getLast?_pushHistory]
  rw [hsnd]
  have hstep := rapidStep_bound (clampBounds p2).2 (validateCore p1 s).2 ha1
  rw [div_le_iff₀ ha1]
  calc |(rapidStep (clampBounds p2).2 (validateCore p1 s).2).2 -
        (validateCore p1 s).2|
      ≤ maxChangeRate * (validateCore p1 s).2 := hstep

/-- Witness for C2 at the empty history with prices 1 then 2. -/
theorem consecutive_step_bounded_witness :
    0 < (validateCore 1 []).2 ∧
      |(validateCore 2 (validatePrice 1 []).2).2 - (validateCore 1 []).2| /
        (validateCore 1 []).2 ≤ maxChangeRate :=
  consecutive_step_bounded [] Reachable.nil 1 2

/-- C9: Every `validatePrice` call records at most two issues (the two bounds
issues are mutually exclusive and the rapid-change check adds at most one),
so the returned `fairness_score` is at least `0.6 = max(1 - 2*0.2, 0)`. -/
theorem issues_le_two_and_score (history : List ℚ) (p : ℚ) :
    ((validatePrice p history).1).issues.length ≤ 2 ∧
      (3/5 : ℚ) ≤ ((validatePrice p history).1).fairness_score := by
  have hlen : (validateCore p history).1.length ≤ 2 := by
    unfold validateCore
    cases history.getLast? with
    | none =>
        exact le_trans (clampBounds_issues_le p) (by norm_num)
    | some lastPrice =>
        have h1 := clampBounds_issues_le p
        have h2 := rapidStep_issues_le (clampBounds p).2 lastPrice
        simp only [List.length_append]
        omega
  have hiss : ((validatePrice p history).1).issues = (validateCore p history).1 := rfl
  have hsc : ((validatePrice p history).1).fairness_score =
      calculateFairnessScore (validateCore p history).1 := rfl
  refine ⟨hiss ▸ hlen, ?_⟩
  rw [hsc]
  unfold calculateFairnessScore
  have hcast : ((validateCore p history).1.length : ℚ) ≤ 2 := by exact_mod_cast hlen
  have hmax : (3/5 : ℚ) ≤ max (1 - ((validateCore p history).1.length : ℚ) * (1/5)) 0 :=
    le_max_of_le_left (by linarith)
  have h35 : round2 (3/5) = 3/5 := by unfold round2; norm_num [round_eq]
  exact h35 ▸ round2_le_round2 hmax

end FairPricing

namespace CapacitorModel

/-- State of `CapacitorModel` (capacitor-model.js lines 7-13): the mutable
`charge` plus the configured `balanceThreshold` (defaulting to 0.75 when the
config supplies none); `maxCharge`, `dischargeRate` and `chargeRate` are the
fixed constants below. -/
structure State where
  charge : ℚ
  balanceThreshold : ℚ
  deriving Repr, DecidableEq

/-- Constant `this.maxCharge = 1.0` (capacitor-model.js line 9). -/
def maxCharge : ℚ := 1

/-- Constant `this.dischargeRate = 0.1` (capacitor-model.js line 11). -/
def dischargeRate : ℚ := 1/10

/-- Constant `this.chargeRate = 0.05` (capacitor-model.js line 12). -/
def chargeRate : ℚ := 1/20

/-- The constructor (capacitor-model.js lines 7-13): initial charge 0.5. -/
def init (balanceThreshold : ℚ) : State := ⟨1/2, balanceThreshold⟩

/-- Model of `accumulateCharge` (capacitor-model.js lines 18-30), state part:
`charge = min(charge + activityLevel * chargeRate, maxCharge)`. -/
def accumulateCharge (m : State) (activityLevel : ℚ) : State :=
  { m with charge := min (m.charge + activityLevel * chargeRate) maxCharge }

/-- Model of `dischargeOnPurchase` (capacitor-model.js lines 35-47), state part:
`charge = max(charge - purchaseSize * dischargeRate, 0)`. -/
def dischargeOnPurchase (m : State) (purchaseSize : ℚ) : State :=
  { m with charge := max (m.charge - purchaseSize * dischargeRate) 0 }

/-- Model of `autoBalance` (capacitor-model.js lines 138-154): move `charge` toward
0.5 by at most 0.02. -/
def autoBalance (m : State) : State :=
  if m.charge > 1/2 then
    { m with charge := m.charge - min (m.charge - 1/2) (1/50) }
  else if m.charge < 1/2 then
    { m with charge := m.charge + min (1/2 - m.charge) (1/50) }
  else m

/-- Model of `getChargeStatus` (capacitor-model.js lines 52-60). -/
inductive ChargeStatus where
  | high_charge
  | low_charge
  | balanced
  deriving Repr, DecidableEq

def getChargeStatus (m : State) : ChargeStatus :=
  if m.charge > m.balanceThreshold then .high_charge
  else if m.charge < 1 - m.balanceThreshold then .low_charge
  else .balanced

/-- The `multiplier` of `getPriceImpact` (capacitor-model.js lines 65-95),
read back from its `toFixed(3)` string: the band formula rounded to three
decimals in the high and low bands, exactly `1.000` when balanced. -/
def getPriceImpactMultiplier (m : State) : ℚ :=
  match getChargeStatus m with
  | .high_charge => round3 (1 + (m.charge - m.balanceThreshold) * (1/5))
  | .low_charge => round3 (1 - ((1 - m.balanceThreshold) - m.charge) * (1/5))
  | .balanced => 1

/-- The record returned by `applyCapacitorPricing` (fields the claims use). -/
structure CapacitorPricing where
  base_price : ℚ
  price_multiplier : ℚ
  adjusted_price : ℚ
  deriving Repr, DecidableEq

/-- Model of `applyCapacitorPricing` (capacitor-model.js lines 100-114):
`adjustedPrice = basePrice * multiplier`, reported through `toFixed(2)`;
`price_multiplier` re-applies `toFixed(3)` to the already three-decimal
multiplier, which changes nothing. -/
def applyCapacitorPricing (m : State) (basePrice : ℚ) : CapacitorPricing :=
  { base_price := basePrice
  , price_multiplier := getPriceImpactMultiplier m
  , adjusted_price := round2 (basePrice * getPriceImpactMultiplier m) }

/-- One mutation of the capacitor state, as named in claim C3. -/
inductive Op where
  | accumulate (activityLevel : ℚ)
  | discharge (purchaseSize : ℚ)
  | balance
  deriving Repr

def applyOp (m : State) : Op → State
  | .accumulate a => accumulateCharge m a
  | .discharge p => dischargeOnPurchase m p
  | .balance => autoBalance m

def runOps (m : State) : List Op → State
  | [] => m
  | op :: ops => runOps (applyOp m op) ops

/-- The argument ranges claim C3 assumes: `accumulateCharge` and
`dischargeOnPurchase` take normalized values in `[0,1]`. -/
def ValidOp : Op → Prop
  | .accumulate a => 0 ≤ a ∧ a ≤ 1
  | .discharge p => 0 ≤ p ∧ p ≤ 1
  | .balance => True

theorem applyOp_charge_bounds (m : State) (op : Op)
    (hm : 0 ≤ m.charge ∧ m.charge ≤ maxCharge) (hop : ValidOp op) :
    0 ≤ (applyOp m op).charge ∧ (applyOp m op).charge ≤ maxCharge := by
  obtain ⟨h0, h1⟩ := hm
  unfold maxCharge at *
  cases op with
  | accumulate a =>
      obtain ⟨ha0, ha1⟩ := hop
      unfold applyOp accumulateCharge chargeRate maxCharge
      constructor
      · simp only
        exact le_min (by nlinarith) (by norm_num)
      · simp only
        exact min_le_right _ _
  | discharge p =>
      obtain ⟨hp0, hp1⟩ := hop
      unfold applyOp dischargeOnPurchase dischargeRate
      constructor
      · simp only
        exact le_max_right _ _
      · simp only
        exact max_le (by nlinarith) (by norm_num)
  | balance =>
      unfold applyOp autoBalance
      split_ifs with hgt hlt
      · have hm1 := min_le_left (m.charge - 1/2) (1/50)
        have hm2 : 0 ≤ min (m.charge - 1/2) (1/50) :=
          le_min (by linarith) (by norm_num)
        constructor <;> simp only <;> linarith
      · have hm1 := min_le_left (1/2 - m.charge) (1/50)
        have hm2 : 0 ≤ min (1/2 - m.charge) (1/50) :=
          le_min (by linarith) (by norm_num)
        constructor <;> simp only <;> linarith
      · exact ⟨h0, h1⟩

theorem runOps_charge_bounds (ops : List Op) (m : State)
    (hm : 0 ≤ m.charge ∧ m.charge ≤ maxCharge)
    (hops : ∀ op ∈ ops, ValidOp op) :
    0 ≤ (runOps m ops).charge ∧ (runOps m ops).charge ≤ maxCharge := by
  induction ops generalizing m with
  | nil => exact hm
  | cons op ops ih =>
      exact ih (applyOp m op)
        (applyOp_charge_bounds m op hm (hops op (List.mem_cons_self op ops)))
        (fun o ho => hops o (List.mem_cons_of_mem op ho))

/-- C3: Starting from the initial charge 0.5, after any finite sequence of
`accumulateCharge(a)` with `a ∈ [0,1]`, `dischargeOnPurchase(p)` with
`p ∈ [0,1]` and `autoBalance()` calls, `0 ≤ charge ≤ maxCharge = 1`. -/
theorem charge_in_unit_interval (balanceThreshold : ℚ) (ops : List Op)
    (hops : ∀ op ∈ ops, ValidOp op) :
    0 ≤ (runOps (init balanceThreshold) ops).charge ∧
      (runOps (init balanceThreshold) ops).charge ≤ maxCharge :=
  runOps_charge_bounds ops (init balanceThreshold)
    (by unfold init maxCharge; norm_num) hops

/-- Witness for C3: a concrete run mixing all three operations. -/
theorem charge_in_unit_interval_witness :
    0 ≤ (runOps (init (3/4))
        [.accumulate 1, .discharge (1/2), .balance]).charge ∧
      (runOps (init (3/4))
        [.accumulate 1, .discharge (1/2), .balance]).charge ≤ maxCharge :=
  charge_in_unit_interval (3/4) [.accumulate 1, .discharge (1/2), .balance]
    (by
      intro op hop
      simp only [List.mem_cons, List.not_mem_nil, or_false] at hop
      rcases hop with rfl | rfl | rfl <;> norm_num [ValidOp])

/-- Counterexample for C7: at charge 0.7777 with the default threshold 0.75
the code's multiplier, `(1 + (0.7777 - 0.75) * 0.2).toFixed(3) = 1.006`,
differs from the exact band formula `1.00554`, and
`applyCapacitorPricing(1)` reports `1.01`, not `1 * 1.00554`. -/
theorem multiplier_rounding_counterexample :
    getPriceImpactMultiplier ⟨7777/10000, 3/4⟩ = 503/500 ∧
      (1 + ((7777:ℚ)/10000 - 3/4) * (1/5)) = 50277/50000 ∧
      (503/500 : ℚ) ≠ 50277/50000 ∧
      (applyCapacitorPricing ⟨7777/10000, 3/4⟩ 1).adjusted_price = 101/100 ∧
      (101/100 : ℚ) ≠ 50277/50000 := by
  have hmul : getPriceImpactMultiplier ⟨7777/10000, 3/4⟩ = 503/500 := by
    unfold getPriceImpactMultiplier getChargeStatus
    norm_num [round3, round_eq]
  refine ⟨hmul, by norm_num, by norm_num, ?_, by norm_num⟩
  unfold applyCapacitorPricing
  rw [hmul]
  norm_num [round2, round_eq]

/-- C7 (amended): the multiplier is the band formula rounded to three
decimals (`toFixed(3)`) in the high and low bands — the low band applying
when the charge is not in the high band — exactly 1.000 when balanced, and
`applyCapacitorPricing` reports `basePrice` times this multiplier rounded to
two decimals (`toFixed(2)`). -/
theorem multiplier_by_band (m : State) (basePrice : ℚ) :
    (m.charge > m.balanceThreshold →
      getPriceImpactMultiplier m =
        round3 (1 + (m.charge - m.balanceThreshold) * (1/5))) ∧
    (¬ m.charge > m.balanceThreshold → m.charge < 1 - m.balanceThreshold →
      getPriceImpactMultiplier m =
        round3 (1 - ((1 - m.balanceThreshold) - m.charge) * (1/5))) ∧
    (¬ m.charge > m.balanceThreshold → ¬ m.charge < 1 - m.balanceThreshold →
      getPriceImpactMultiplier m = 1) ∧
    (applyCapacitorPricing m basePrice).adjusted_price =
      round2 (basePrice * getPriceImpactMultiplier m) := by
  refine ⟨?_, ?_, ?_, rfl⟩
  · intro h
    unfold getPriceImpactMultiplier getChargeStatus
    rw [if_pos h]
  · intro h1 h2
    unfold getPriceImpactMultiplier getChargeStatus
    rw [if_neg h1, if_pos h2]
  · intro h1 h2
    unfold getPriceImpactMultiplier getChargeStatus
    rw [if_neg h1, if_neg h2]

/-- Witness for C7 at charge 0.8, threshold 0.75, base price 2. -/
theorem multiplier_by_band_witness :
    getPriceImpactMultiplier ⟨4/5, 3/4⟩ =
        round3 (1 + ((4/5 : ℚ) - 3/4) * (1/5)) ∧
      (applyCapacitorPricing ⟨4/5, 3/4⟩ 2).adjusted_price =
        round2 (2 * getPriceImpactMultiplier ⟨4/5, 3/4⟩) :=
  ⟨(multiplier_by_band ⟨4/5, 3/4⟩ 2).1 (by norm_num),
    (multiplier_by_band ⟨4/5, 3/4⟩ 2).2.2.2⟩

end CapacitorModel

namespace ALCMarket

/-- State of `ALCMarket` (alc-market.js lines 7-13): the fields read or
written by `adjustMarketValue`. -/
structure State where
  currentValue : ℚ
  volatility : ℚ
  trendPercent : ℚ
  deriving Repr, DecidableEq

/-- The record returned by `adjustMarketValue` (alc-market.js lines 75-80);
the `toFixed(2)` formatted figures are read back as rounded rationals. -/
structure AdjustResult where
  old_value : ℚ
  new_value : ℚ
  change_percent : ℚ
  market_condition : String
  deriving Repr, DecidableEq

/-- Model of `ALCMarket.adjustMarketValue` (alc-market.js lines 64-81):
`currentValue += currentValue * (ratio - 1) * volatility`, the trend is the
percent change from the old value, and the condition is classified by the
ratio against 1. -/
def adjustMarketValue (m : State) (supplyDemandRatio : ℚ) :
    AdjustResult × State :=
  let oldValue := m.currentValue
  let adjustment := (supplyDemandRatio - 1) * m.volatility
  let newValue := m.currentValue + m.currentValue * adjustment
  let trend := ((newValue - oldValue) / oldValue) * 100
  ({ old_value := round2 oldValue
   , new_value := round2 newValue
   , change_percent := round2 trend
   , market_condition :=
       if supplyDemandRatio > 1 then "high_demand"
       else if supplyDemandRatio < 1 then "abundant_supply"
       else "stable" },
   { m with currentValue := newValue, trendPercent := trend })

/-- C4: with `currentValue > 0` and `volatility > 0`, `adjustMarketValue`
strictly increases `currentValue` and reports `high_demand` for ratio > 1,
strictly decreases it and reports `abundant_supply` for 0 < ratio < 1, and
leaves it unchanged reporting `stable` for ratio = 1. -/
theorem adjust_market_value_monotone (m : State) (hv : 0 < m.currentValue)
    (hvol : 0 < m.volatility) (r : ℚ) :
    (1 < r →
      m.currentValue < ((adjustMarketValue m r).2).currentValue ∧
        ((adjustMarketValue m r).1).market_condition = "high_demand") ∧
    (0 < r → r < 1 →
      ((adjustMarketValue m r).2).currentValue < m.currentValue ∧
        ((adjustMarketValue m r).1).market_condition = "abundant_supply") ∧
    (r = 1 →
      ((adjustMarketValue m r).2).currentValue = m.currentValue ∧
        ((adjustMarketValue m r).1).market_condition = "stable") := by
  refine ⟨fun hr => ⟨?_, ?_⟩, fun hr0 hr => ⟨?_, ?_⟩, fun hr => ⟨?_, ?_⟩⟩
  · show m.currentValue <
      m.currentValue + m.currentValue * ((r - 1) * m.volatility)
    have hpos : 0 < m.currentValue * ((r - 1) * m.volatility) :=
      mul_pos hv (mul_pos (by linarith) hvol)
    linarith
  · show (if r > 1 then "high_demand"
      else if r < 1 then "abundant_supply" else "stable") = "high_demand"
    rw [if_pos hr]
  · show m.currentValue + m.currentValue * ((r - 1) * m.volatility) <
      m.currentValue
    have hpos : 0 < m.currentValue * ((1 - r) * m.volatility) :=
      mul_pos hv (mul_pos (by linarith) hvol)
    have heq : m.currentValue * ((r - 1) * m.volatility) =
        -(m.currentValue * ((1 - r) * m.volatility)) := by ring
    linarith
  · show (if r > 1 then "high_demand"
      else if r < 1 then "abundant_supply" else "stable") = "abundant_supply"
    rw [if_neg (by linarith), if_pos hr]
  · show m.currentValue + m.currentValue * ((r - 1) * m.volatility) =
      m.currentValue
    rw [hr]; ring
  · show (if r > 1 then "high_demand"
      else if r < 1 then "abundant_supply" else "stable") = "stable"
    rw [if_neg (by rw [hr]; exact lt_irrefl 1), if_neg (by rw [hr]; exact lt_irrefl 1)]

/-- Witness for C4 at `currentValue = 2`, `volatility = 0.1`, ratio 2. -/
theorem adjust_market_value_monotone_witness :
    (2:ℚ) < ((adjustMarketValue ⟨2, 1/10, 0⟩ 2).2).currentValue ∧
      ((adjustMarketValue ⟨2, 1/10, 0⟩ 2).1).market_condition = "high_demand" :=
  (adjust_market_value_monotone ⟨2, 1/10, 0⟩ (by norm_num) (by norm_num) 2).1
    (by norm_num)

end ALCMarket

namespace DynamicPricing

/-- Values an expression in `calculateArtPrice` / `calculateTokenValue` can
take at run time: a finite number, NaN, a truthy non-numeric value inherited
from `Object.prototype` (a function, or the prototype object itself for
`__proto__`), or `undefined`. -/
inductive JSValue where
  | num (q : ℚ)
  | nan
  | fn
  | undefined
  deriving Repr, DecidableEq

/-- Property names every object literal inherits from `Object.prototype`.
Looking one of these up on a rate table that does not shadow it yields the
inherited value, which is truthy and non-numeric. -/
def protoKeys : List String :=
  ["constructor", "hasOwnProperty", "isPrototypeOf", "propertyIsEnumerable",
   "toLocaleString", "toString", "valueOf", "__proto__", "__defineGetter__",
   "__defineSetter__", "__lookupGetter__", "__lookupSetter__"]

/-- JS truthiness: `0` and NaN are falsy, functions and objects truthy,
`undefined` falsy. -/
def truthy : JSValue → Bool
  | .num q => decide (q ≠ 0)
  | .nan => false
  | .fn => true
  | .undefined => false

/-- The `a || b` operator: `a` when truthy, else `b`. -/
def jsOr (a b : JSValue) : JSValue := if truthy a then a else b

/-- ToNumber coercion, with `none` for NaN: functions, objects and
`undefined` all coerce to NaN. -/
def toNumber : JSValue → Option ℚ
  | .num q => some q
  | _ => none

/-- JS multiplication: the numeric product, NaN when either operand
coerces to NaN. -/
def jsMul (a b : JSValue) : JSValue :=
  match toNumber a, toNumber b with
  | some x, some y => .num (x * y)
  | _, _ => .nan

/-- `Math.round`: ties toward positive infinity on numbers, NaN otherwise. -/
def jsRound : JSValue → JSValue
  | .num q => .num (round q)
  | _ => .nan

/-- Table `complexityRates` (dynamic-pricing.js lines 22-26), as property
lookup on the object literal: own keys first, then the prototype chain,
then `undefined`. -/
def complexityRates (complexity : String) : JSValue :=
  if complexity = "low" then .num 5
  else if complexity = "medium" then .num 10
  else if complexity = "high" then .num 20
  else if complexity ∈ protoKeys then .fn
  else .undefined

/-- Table `demandMultipliers` (dynamic-pricing.js lines 28-32). -/
def demandMultipliers (demand : String) : JSValue :=
  if demand = "low" then .num (4/5)
  else if demand = "normal" then .num 1
  else if demand = "high" then .num (3/2)
  else if demand ∈ protoKeys then .fn
  else .undefined

structure ArtParams where
  complexity : String
  timeSpent : ℚ
  demand : String

/-- Model of `calculateArtPrice` (dynamic-pricing.js lines 15-47): the
returned `final_price_alc`, i.e. `Math.round((complexityRates[complexity]
|| 10) * timeSpent * (demandMultipliers[demand] || 1.0))` with JS property
lookup, truthiness and NaN propagation. -/
def calculateArtPrice (p : ArtParams) : JSValue :=
  jsRound (jsMul (jsMul (jsOr (complexityRates p.complexity) (.num 10))
    (.num p.timeSpent)) (jsOr (demandMultipliers p.demand) (.num 1)))

/-- Table `typeMultipliers` (dynamic-pricing.js lines 59-63). -/
def typeMultipliers (t : String) : JSValue :=
  if t = "standard" then .num 1
  else if t = "premium" then .num 2
  else if t = "limited" then .num 3
  else if t ∈ protoKeys then .fn
  else .undefined

/-- Table `utilityRates` (dynamic-pricing.js lines 65-69). -/
def utilityRates (u : String) : JSValue :=
  if u = "low" then .num 5
  else if u = "medium" then .num 10
  else if u = "high" then .num 20
  else if u ∈ protoKeys then .fn
  else .undefined

structure TokenParams where
  type : String
  utility : String
  scarcity : ℚ

/-- Model of `calculateTokenValue` (dynamic-pricing.js lines 52-85): the
returned `base_value_alc`, i.e. `Math.round((utilityRates[utility] || 10) *
(typeMultipliers[type] || 1.0) * scarcityBonus)`. -/
def calculateTokenValue (p : TokenParams) : JSValue :=
  jsRound (jsMul (jsMul (jsOr (utilityRates p.utility) (.num 10))
    (jsOr (typeMultipliers p.type) (.num 1)))
    (.num (if p.scarcity < 100 then 2 else if p.scarcity < 500 then 3/2
      else 1)))

theorem jsMul_nan_left (b : JSValue) : jsMul JSValue.nan b = JSValue.nan := by
  cases b <;> rfl

theorem jsMul_fn_left (b : JSValue) : jsMul JSValue.fn b = JSValue.nan := by
  cases b <;> rfl

theorem jsMul_fn_right (a : JSValue) : jsMul a JSValue.fn = JSValue.nan := by
  cases a <;> rfl

theorem complexityRates_proto {c : String} (hc : c ∈ protoKeys) :
    complexityRates c = JSValue.fn := by
  simp only [protoKeys, List.mem_cons, List.not_mem_nil, or_false] at hc
  rcases hc with rfl | rfl | rfl | rfl | rfl | rfl | rfl | rfl | rfl | rfl
    | rfl | rfl <;> rfl

theorem demandMultipliers_proto {d : String} (hd : d ∈ protoKeys) :
    demandMultipliers d = JSValue.fn := by
  simp only [protoKeys, List.mem_cons, List.not_mem_nil, or_false] at hd
  rcases hd with rfl | rfl | rfl | rfl | rfl | rfl | rfl | rfl | rfl | rfl
    | rfl | rfl <;> rfl

theorem typeMultipliers_proto {t : String} (ht : t ∈ protoKeys) :
    typeMultipliers t = JSValue.fn := by
  simp only [protoKeys, List.mem_cons, List.not_mem_nil, or_false] at ht
  rcases ht with rfl | rfl | rfl | rfl | rfl | rfl | rfl | rfl | rfl | rfl
    | rfl | rfl <;> rfl

theorem utilityRates_proto {u : String} (hu : u ∈ protoKeys) :
    utilityRates u = JSValue.fn := by
  simp only [protoKeys, List.mem_cons, List.not_mem_nil, or_false] at hu
  rcases hu with rfl | rfl | rfl | rfl | rfl | rfl | rfl | rfl | rfl | rfl
    | rfl | rfl <;> rfl

/-- Counterexample for C8: at the inherited property name `constructor` the
lookup `complexityRates["constructor"]` finds `Object.prototype.constructor`,
a truthy function, so the `|| 10` fallback does not fire; the multiplication
coerces it to NaN and `calculateArtPrice` yields NaN, not the
medium-category result 30. -/
theorem prototype_key_not_default :
    calculateArtPrice ⟨"constructor", 3, "normal"⟩ = JSValue.nan ∧
      calculateArtPrice ⟨"medium", 3, "normal"⟩ = JSValue.num 30 ∧
      JSValue.nan ≠ JSValue.num 30 := by
  refine ⟨rfl, ?_, by simp⟩
  have h : calculateArtPrice ⟨"medium", 3, "normal"⟩ =
      JSValue.num (round ((10:ℚ) * 3 * 1)) := rfl
  rw [h]
  norm_num [round_eq]

/-- C8 (amended): every categorical input string outside the documented
enumeration that is not an `Object.prototype` property name makes the
formulas return exactly the default-category result (unknown complexity
acts as `medium`, unknown demand as `normal`, unknown token type as
multiplier 1.0 i.e. `standard`, unknown utility as `medium`), and no
unknown input raises an error; at an inherited property name such as
`constructor` the `||` fallback does not fire and the result is NaN
instead. -/
theorem unknown_category_defaults (c d t u : String)
    (timeSpent scarcity : ℚ) :
    (c ≠ "low" → c ≠ "medium" → c ≠ "high" → c ∉ protoKeys →
      calculateArtPrice ⟨c, timeSpent, d⟩ =
        calculateArtPrice ⟨"medium", timeSpent, d⟩) ∧
    (d ≠ "low" → d ≠ "normal" → d ≠ "high" → d ∉ protoKeys →
      calculateArtPrice ⟨c, timeSpent, d⟩ =
        calculateArtPrice ⟨c, timeSpent, "normal"⟩) ∧
    (t ≠ "standard" → t ≠ "premium" → t ≠ "limited" → t ∉ protoKeys →
      calculateTokenValue ⟨t, u, scarcity⟩ =
        calculateTokenValue ⟨"standard", u, scarcity⟩) ∧
    (u ≠ "low" → u ≠ "medium" → u ≠ "high" → u ∉ protoKeys →
      calculateTokenValue ⟨t, u, scarcity⟩ =
        calculateTokenValue ⟨t, "medium", scarcity⟩) ∧
    (c ∈ protoKeys → calculateArtPrice ⟨c, timeSpent, d⟩ = JSValue.nan) ∧
    (d ∈ protoKeys → calculateArtPrice ⟨c, timeSpent, d⟩ = JSValue.nan) ∧
    (t ∈ protoKeys → calculateTokenValue ⟨t, u, scarcity⟩ = JSValue.nan) ∧
    (u ∈ protoKeys → calculateTokenValue ⟨t, u, scarcity⟩ = JSValue.nan)
    := by
  refine ⟨?_, ?_, ?_, ?_, ?_, ?_, ?_, ?_⟩
  · intro h1 h2 h3 h4
    have hl : complexityRates c = JSValue.undefined := by
      unfold complexityRates
      rw [if_neg h1, if_neg h2, if_neg h3, if_neg h4]
    unfold calculateArtPrice
    rw [hl]
    rfl
  · intro h1 h2 h3 h4
    have hl : demandMultipliers d = JSValue.undefined := by
      unfold demandMultipliers
      rw [if_neg h1, if_neg h2, if_neg h3, if_neg h4]
    unfold calculateArtPrice
    rw [hl]
    rfl
  · intro h1 h2 h3 h4
    have hl : typeMultipliers t = JSValue.undefined := by
      unfold typeMultipliers
      rw [if_neg h1, if_neg h2, if_neg h3, if_neg h4]
    unfold calculateTokenValue
    rw [hl]
    rfl
  · intro h1 h2 h3 h4
    have hl : utilityRates u = JSValue.undefined := by
      unfold utilityRates
      rw [if_neg h1, if_neg h2, if_neg h3, if_neg h4]
    unfold calculateTokenValue
    rw [hl]
    rfl
  · intro hc
    unfold calculateArtPrice
    rw [complexityRates_proto hc]
    rw [show jsMul (jsOr JSValue.fn (JSValue.num 10))
      (JSValue.num timeSpent) = JSValue.nan from rfl]
    rw [jsMul_nan_left]
    rfl
  · intro hd
    unfold calculateArtPrice
    rw [demandMultipliers_proto hd]
    rw [show jsOr JSValue.fn (JSValue.num 1) = JSValue.fn from rfl]
    rw [jsMul_fn_right]
    rfl
  · intro ht
    unfold calculateTokenValue
    rw [typeMultipliers_proto ht]
    rw [show jsOr JSValue.fn (JSValue.num 1) = JSValue.fn from rfl]
    rw [jsMul_fn_right, jsMul_nan_left]
    rfl
  · intro hu
    unfold calculateTokenValue
    rw [utilityRates_proto hu]
    rw [show jsOr JSValue.fn (JSValue.num 10) = JSValue.fn from rfl]
    rw [jsMul_fn_left, jsMul_nan_left]
    rfl

/-- Witness for C8 at the unknown non-prototype strings `epic`, `weird`,
`mythic`, `max`, plus the prototype name `constructor`. -/
theorem unknown_category_defaults_witness :
    calculateArtPrice ⟨"epic", 3, "weird"⟩ =
        calculateArtPrice ⟨"medium", 3, "weird"⟩ ∧
      calculateArtPrice ⟨"epic", 3, "weird"⟩ =
        calculateArtPrice ⟨"epic", 3, "normal"⟩ ∧
      calculateTokenValue ⟨"mythic", "max", 1000⟩ =
        calculateTokenValue ⟨"standard", "max", 1000⟩ ∧
      calculateTokenValue ⟨"mythic", "max", 1000⟩ =
        calculateTokenValue ⟨"mythic", "medium", 1000⟩ ∧
      calculateArtPrice ⟨"constructor", 3, "weird"⟩ = JSValue.nan :=
  ⟨(unknown_category_defaults "epic" "weird" "mythic" "max" 3 1000).1
      (by decide) (by decide) (by decide) (by decide),
    (unknown_category_defaults "epic" "weird" "mythic" "max" 3 1000).2.1
      (by decide) (by decide) (by decide) (by decide),
    (unknown_category_defaults "epic" "weird" "mythic" "max" 3 1000).2.2.1
      (by decide) (by decide) (by decide) (by decide),
    (unknown_category_defaults "epic" "weird" "mythic" "max" 3 1000).2.2.2.1
      (by decide) (by decide) (by decide) (by decide),
    (unknown_category_defaults "constructor" "weird" "mythic" "max" 3
      1000).2.2.2.2.1 (by decide)⟩

end DynamicPricing

namespace FairPricing

/-- The destructured `marketData` argument of `ensureFairMarket`
(fair-pricing.js lines 81-85); `none` models an absent property, which
defaults to the proposed price (`competitorPrices` defaults to `[]`). -/
structure MarketData where
  averagePrice : Option ℚ
  medianPrice : Option ℚ
  competitorPrices : List ℚ
  deriving Repr, DecidableEq

/-- fair-pricing.js lines 88-89: `[averagePrice, medianPrice,
...competitorPrices].filter(p => p > 0)`. -/
def allPrices (proposedPrice : ℚ) (md : MarketData) : List ℚ :=
  (md.averagePrice.getD proposedPrice ::
    md.medianPrice.getD proposedPrice :: md.competitorPrices).filter
      (fun p => decide (p > 0))

/-- The two return shapes of `ensureFairMarket` (fair-pricing.js lines
96-103 and 106-112); figures passed through `toFixed` are read back as
rounded rationals, and `none` models a NaN figure. -/
inductive FairMarketResult where
  | adjusted (original_price market_average adjusted_price
      deviation_percent : ℚ)
  | withinRange (price : ℚ) (market_average deviation_percent : Option ℚ)
  deriving Repr, DecidableEq

/-- Model of `FairPricing.ensureFairMarket` (fair-pricing.js lines 80-113). When the
filtered price list is empty the source computes `0 / 0 = NaN` for
`marketAverage` and `deviation`; `NaN > 0.3` is false, so the within-range
branch is taken with NaN (`none`) figures, which the empty case below
models. -/
def ensureFairMarket (proposedPrice : ℚ) (md : MarketData) :
    FairMarketResult :=
  if (allPrices proposedPrice md).length = 0 then
    FairMarketResult.withinRange proposedPrice none none
  else
    let marketAverage :=
      (allPrices proposedPrice md).sum / (allPrices proposedPrice md).length
    let deviation := |proposedPrice - marketAverage| / marketAverage
    if deviation > 3/10 then
      FairMarketResult.adjusted proposedPrice (round2 marketAverage)
        (round2 marketAverage) (round1 (deviation * 100))
    else
      FairMarketResult.withinRange proposedPrice (some (round2 marketAverage))
        (some (round1 (deviation * 100)))

/-- Counterexample for C5: for proposed price 100 over positive candidates
`averagePrice = 1`, `medianPrice = 1`, `competitorPrices = [2]` the mean is
`4/3`, but the adjusted price reported through `toFixed(2)` is `1.33`, not
the mean. -/
theorem adjusted_price_not_mean :
    allPrices 100 ⟨some 1, some 1, [2]⟩ = [1, 1, 2] ∧
      (((1:ℚ) + 1 + 2) / 3 = 4/3) ∧
      ensureFairMarket 100 ⟨some 1, some 1, [2]⟩ =
        FairMarketResult.adjusted 100 (133/100) (133/100) 7400 ∧
      (133/100 : ℚ) ≠ 4/3 := by
  have hall : allPrices 100 ⟨some 1, some 1, [2]⟩ = [1, 1, 2] := by decide
  refine ⟨hall, by norm_num, ?_, by norm_num⟩
  unfold ensureFairMarket
  rw [hall]
  norm_num [round2, round1, round_eq, abs_of_pos]

/-- C5 (amended): with at least one positive candidate, `ensureFairMarket`
computes the arithmetic mean of the positive values among `averagePrice`,
`medianPrice` and `competitorPrices`; if `|proposed - mean| / mean > 0.30`
it returns the mean rounded to two decimals (`toFixed(2)`) as the adjusted
price with `adjusted = true`, otherwise it returns the proposed price
unchanged; in the spec's example, proposed price 100 against mean 50 yields
deviation 1.0 and adjusted price 50 exactly. -/
theorem ensure_fair_market_characterization (proposedPrice mean : ℚ)
    (md : MarketData) (hne : allPrices proposedPrice md ≠ [])
    (hmean : mean = (allPrices proposedPrice md).sum /
      (allPrices proposedPrice md).length) :
    (|proposedPrice - mean| / mean > 3/10 →
      ensureFairMarket proposedPrice md =
        FairMarketResult.adjusted proposedPrice (round2 mean) (round2 mean)
          (round1 (|proposedPrice - mean| / mean * 100))) ∧
    (¬ |proposedPrice - mean| / mean > 3/10 →
      ensureFairMarket proposedPrice md =
        FairMarketResult.withinRange proposedPrice (some (round2 mean))
          (some (round1 (|proposedPrice - mean| / mean * 100)))) := by
  have hlen : ¬ (allPrices proposedPrice md).length = 0 := by
    simpa [List.length_eq_zero] using hne
  subst hmean
  constructor
  · intro hdev
    unfold ensureFairMarket
    rw [if_neg hlen, if_pos hdev]
  · intro hdev
    unfold ensureFairMarket
    rw [if_neg hlen, if_neg hdev]

/-- Witness for C5 at the spec's example
`ensureFairMarket(100, (averagePrice 50, medianPrice 50, no competitors))`:
mean 50, deviation 1.0 (reported as 100.0 percent), adjusted price 50. -/
theorem ensure_fair_market_characterization_witness :
    ensureFairMarket 100 ⟨some 50, some 50, []⟩ =
        FairMarketResult.adjusted 100 (round2 50) (round2 50)
          (round1 (|(100:ℚ) - 50| / 50 * 100)) ∧
      ensureFairMarket 100 ⟨some 50, some 50, []⟩ =
        FairMarketResult.adjusted 100 50 50 100 := by
  have hall : allPrices 100 ⟨some 50, some 50, []⟩ = [50, 50] := by decide
  have h := (ensure_fair_market_characterization 100 50 ⟨some 50, some 50, []⟩
    (by rw [hall]; simp)
    (by rw [hall]; norm_num [List.sum_cons, List.sum_nil])).1
    (by rw [abs_of_pos] <;> norm_num)
  refine ⟨h, ?_⟩
  rw [h, abs_of_pos (by norm_num : (0:ℚ) < 100 - 50)]
  norm_num [round2, round1, round_eq]

/-- C10: when `averagePrice`, `medianPrice` and every competitor price are
all non-positive, every candidate is filtered out, the mean and deviation
are NaN (`none`), and the NaN comparison sends `ensureFairMarket` down the
within-acceptable-range branch, returning the proposed price unchanged with
a NaN deviation report instead of an error. -/
theorem ensure_fair_market_nan (p a m : ℚ) (md : MarketData)
    (ha : md.averagePrice = some a) (ha0 : a ≤ 0)
    (hm : md.medianPrice = some m) (hm0 : m ≤ 0)
    (hc : ∀ x ∈ md.competitorPrices, x ≤ 0) :
    ensureFairMarket p md = FairMarketResult.withinRange p none none := by
  have hempty : allPrices p md = [] := by
    unfold allPrices
    rw [ha, hm]
    simp only [Option.getD_some]
    rw [List.filter_eq_nil_iff]
    intro x hx
    simp only [List.mem_cons] at hx
    rcases hx with rfl | rfl | hx
    · simpa using ha0
    · simpa using hm0
    · simpa using hc x hx
  unfold ensureFairMarket
  rw [hempty]
  norm_num

/-- Witness for C10 with `averagePrice = 0`, `medianPrice = -1` and
competitor prices `[-2, 0]`. -/
theorem ensure_fair_market_nan_witness :
    ensureFairMarket 100 ⟨some 0, some (-1), [-2, 0]⟩ =
      FairMarketResult.withinRange 100 none none :=
  ensure_fair_market_nan 100 0 (-1) ⟨some 0, some (-1), [-2, 0]⟩ rfl
    (by norm_num) rfl (by norm_num)
    (by intro x hx; simp only [List.mem_cons, List.not_mem_nil, or_false] at hx
        rcases hx with rfl | rfl <;> norm_num)

/-- The loop of `detectManipulation` (fair-pricing.js lines 126-138),
scanning from the second element with `prev` the previous element and
`count` the current `consecutiveIncreases`; the loop body's reassignment of
the counter is inlined into the two branches. Returns whether the loop hits
`consecutiveIncreases >= 5` (and breaks). -/
def scanIncreases : ℚ → List ℚ → Nat → Bool
  | _, [], _ => false
  | prev, x :: xs, count =>
      if prev < x then
        if 5 ≤ count + 1 then true else scanIncreases x xs (count + 1)
      else
        if 5 ≤ (0 : Nat) then true else scanIncreases x xs 0

/-- The artificial-inflation check of `detectManipulation`: does the scan
find 5 consecutive strict increases? -/
def hasInflationRun (seq : List ℚ) : Bool :=
  match seq with
  | [] => false
  | p :: rest => scanIncreases p rest 0

/-- Model of `Math.max(...seq)` over a non-empty list (0 is never reached: the
caller guarantees at least 5 samples). -/
def listMax : List ℚ → ℚ
  | [] => 0
  | x :: xs => xs.foldl max x

/-- Model of `Math.min(...seq)` over a non-empty list. -/
def listMin : List ℚ → ℚ
  | [] => 0
  | x :: xs => xs.foldl min x

/-- fair-pricing.js lines 123-147: the two independent pattern checks, each
contributing at most one. The volatility quotient uses total division on ℚ
(a zero minimum yields 0 rather than the NaN or infinity of JS; the claims
never depend on that case). -/
def suspiciousPatterns (seq : List ℚ) : Nat :=
  (if hasInflationRun seq then 1 else 0) +
    (if (listMax seq - listMin seq) / listMin seq > 1/2 then 1 else 0)

/-- The record returned by `detectManipulation` (fields the claims use;
the short-circuit return carries no pattern count, modelled as 0). -/
structure ManipulationResult where
  manipulation_detected : Bool
  suspicious_patterns : Nat
  confidence : String
  deriving Repr, DecidableEq

/-- Model of `FairPricing.detectManipulation` (fair-pricing.js lines 118-155). -/
def detectManipulation (seq : List ℚ) : ManipulationResult :=
  if seq.length < 5 then
    { manipulation_detected := false
    , suspicious_patterns := 0
    , confidence := "insufficient_data" }
  else
    { manipulation_detected := decide (0 < suspiciousPatterns seq)
    , suspicious_patterns := suspiciousPatterns seq
    , confidence :=
        if suspiciousPatterns seq > 1 then "high"
        else if suspiciousPatterns seq > 0 then "medium"
        else "low" }

/-- The first `k` steps of the list are strict increases (the spec's
monotonic-run pattern, of length `k`). -/
def headAsc : Nat → List ℚ → Bool
  | 0, _ => true
  | k + 1, a :: b :: t => decide (a < b) && headAsc k (b :: t)
  | _ + 1, [] => false
  | _ + 1, [_] => false

/-- A run of 5 or more consecutive strict increases anywhere in the list. -/
def HasRun5 (l : List ℚ) : Prop := ∃ i, headAsc 5 (l.drop i) = true

theorem scanIncreases_mono :
    ∀ (rest : List ℚ) (prev : ℚ) (count c2 : Nat), count ≤ c2 →
      scanIncreases prev rest count = true →
      scanIncreases prev rest c2 = true := by
  intro rest
  induction rest with
  | nil =>
      intro prev count c2 hle hs
      simp [scanIncreases] at hs
  | cons x xs ih =>
      intro prev count c2 hle hs
      unfold scanIncreases at hs ⊢
      by_cases hpx : prev < x
      · rw [if_pos hpx] at hs ⊢
        by_cases h5 : 5 ≤ c2 + 1
        · rw [if_pos h5]
        · rw [if_neg h5]
          rw [if_neg (by omega : ¬ 5 ≤ count + 1)] at hs
          exact ih x (count + 1) (c2 + 1) (by omega) hs
      · rw [if_neg hpx] at hs ⊢
        exact hs

theorem scanIncreases_of_headAsc :
    ∀ (rest : List ℚ) (prev : ℚ) (count k : Nat), 1 ≤ k →
      headAsc k (prev :: rest) = true → 5 ≤ count + k →
      scanIncreases prev rest count = true := by
  intro rest
  induction rest with
  | nil =>
      intro prev count k hk hasc h5
      cases k with
      | zero => omega
      | succ j => simp [headAsc] at hasc
  | cons x xs ih =>
      intro prev count k hk hasc h5
      cases k with
      | zero => omega
      | succ j =>
          simp only [headAsc, Bool.and_eq_true, decide_eq_true_eq] at hasc
          obtain ⟨hlt, hasc2⟩ := hasc
          unfold scanIncreases
          rw [if_pos hlt]
          by_cases h51 : 5 ≤ count + 1
          · rw [if_pos h51]
          · rw [if_neg h51]
            cases j with
            | zero => omega
            | succ j2 =>
                exact ih x (count + 1) (j2 + 1) (by omega) hasc2 (by omega)

theorem hasInflationRun_of_HasRun5 :
    ∀ (seq : List ℚ), HasRun5 seq → hasInflationRun seq = true := by
  intro seq
  induction seq with
  | nil =>
      rintro ⟨i, hi⟩
      rw [List.drop_nil] at hi
      simp [headAsc] at hi
  | cons p rest ih =>
      rintro ⟨i, hi⟩
      cases i with
      | zero =>
          exact scanIncreases_of_headAsc rest p 0 5 (by omega) hi (by omega)
      | succ j =>
          have hdrop : (p :: rest).drop (j + 1) = rest.drop j := rfl
          rw [hdrop] at hi
          have htail : hasInflationRun rest = true := ih ⟨j, hi⟩
          unfold hasInflationRun at htail ⊢
          cases rest with
          | nil => simp at htail
          | cons r0 rs =>
              unfold scanIncreases
              by_cases hpr : p < r0
              · rw [if_pos hpr, if_neg (by omega : ¬ 5 ≤ 0 + 1)]
                exact scanIncreases_mono rs r0 0 1 (by omega) htail
              · rw [if_neg hpr, if_neg (by omega : ¬ 5 ≤ (0:Nat))]
                exact htail

/-- C6: every price sequence of length at least 5 containing a run of 5 or
more consecutive strict increases makes `detectManipulation` report the
monotonic-run pattern: `suspicious_patterns >= 1` and
`manipulation_detected = true`. -/
theorem manipulation_monotonic_run (seq : List ℚ) (hlen : 5 ≤ seq.length)
    (hrun : HasRun5 seq) :
    1 ≤ (detectManipulation seq).suspicious_patterns ∧
      (detectManipulation seq).manipulation_detected = true := by
  unfold detectManipulation
  rw [if_neg (by omega : ¬ seq.length < 5)]
  have hinf := hasInflationRun_of_HasRun5 seq hrun
  have hpat : 1 ≤ suspiciousPatterns seq := by
    unfold suspiciousPatterns
    rw [if_pos hinf]
    split_ifs <;> omega
  refine ⟨hpat, ?_⟩
  show decide (0 < suspiciousPatterns seq) = true
  rw [decide_eq_true_eq]
  exact hpat

/-- Witness for C6 at the spec's example `[1,2,3,4,5,6]`, whose five strict
increases form a monotonic run starting at index 0. -/
theorem manipulation_monotonic_run_witness :
    1 ≤ (detectManipulation [1, 2, 3, 4, 5, 6]).suspicious_patterns ∧
      (detectManipulation [1, 2, 3, 4, 5, 6]).manipulation_detected = true :=
  manipulation_monotonic_run [1, 2, 3, 4, 5, 6] (by decide) ⟨0, by decide⟩

end FairPricing

end InfinityPricing
